import Mathlib

/-!
Verification of the efj-mtgc repository: booster-pack generation engine
(spec sections 2 to 4), the crack-pack CLI and web server glue, the
Scryfall price/printing clients and the vision-based card identification
helpers. Pure parts of the Python source are embedded as executable Lean
definitions; the pack generator service itself is not part of the given
source tree, so it is modelled from the specification text, as flagged in
the doc comments below.
-/

namespace Mtgc

/-- Modelled from the spec (section 7): the error taxonomy of the engine.
The Python service raises ValueError carrying a message; the spec names
four error classes, which we keep as constructors carrying the message. -/
inductive PackError where
  | DataFormatError : String → PackError
  | NotFoundError : String → PackError
  | ConfigurationError : String → PackError
  | InsufficientCardsError : String → PackError
deriving DecidableEq, Repr

/-- Message carried by an engine error (the string of the raised ValueError). -/
def PackError.message : PackError → String
  | .DataFormatError m => m
  | .NotFoundError m => m
  | .ConfigurationError m => m
  | .InsufficientCardsError m => m

/-- Association-list lookup keyed by strings, used for every mapping of the
configuration data (products, sheets, card pool, caches). -/
def alistGet {α : Type} (k : String) : List (String × α) → Option α
  | [] => none
  | (k', v) :: rest => if k = k' then some v else alistGet k rest

/-- Modelled from the spec (section 4.2): one step of the seedable
pseudo-random generator; the state is a natural number, advanced by a
linear congruential rule reduced modulo 2 to the 32. -/
def rngNext (s : Nat) : Nat := (s * 1103515245 + 12345) % 4294967296

/-- Modelled from the spec (section 4.2): uniform draw in [0, n) together
with the successor state. -/
def uniformIndex (n : Nat) (s : Nat) : Nat × Nat :=
  let s' := rngNext s
  (if n = 0 then 0 else s' % n, s')

/-- Cumulative-sum scan: index of the weight bucket containing the draw r.
Returns the list length when r is at least the total weight. -/
def pickIndex (r : Nat) : List Nat → Nat
  | [] => 0
  | w :: ws => if r < w then 0 else pickIndex (r - w) ws + 1

/-- Modelled from the spec (section 4.2): weighted choice by a
cumulative-sum-and-uniform-draw algorithm over the given weight sequence. -/
def weightedChoice (weights : List Nat) (s : Nat) : Nat × Nat :=
  let p := uniformIndex weights.sum s
  (pickIndex p.1 weights, p.2)

/-- Modelled from the spec (section 3): the immutable card descriptor of the
configuration data set. -/
structure CardRecord where
  name : String
  setCode : String
  collectorNumber : String
  rarity : String
  borderColor : String
  frameEffects : List String
  isFullArt : Bool
  groupId : String
  hasNonfoil : Bool
  hasFoil : Bool
  crossRefId : String
deriving DecidableEq, Repr

/-- Modelled from the spec (sections 3 and 6): a named weighted pool. The
cards field is the mapping from card identifier to positive weight, kept in
declared order. -/
structure Sheet where
  cards : List (String × Nat)
  totalWeight : Nat
  foil : Bool
  balance : Bool
  fixed : Bool
deriving DecidableEq, Repr

/-- Modelled from the spec (section 3): one possible configuration of a
pack, with its weight and its sheet-name-to-count contents mapping. -/
structure BoosterVariant where
  weight : Nat
  contents : List (String × Nat)
deriving DecidableEq, Repr

/-- Modelled from the spec (section 3): a named product as an ordered list
of variants. -/
structure BoosterProduct where
  variants : List BoosterVariant
deriving DecidableEq, Repr

/-- Modelled from the spec (section 3): a set record with its products,
its sheet collection and its card pool. -/
structure SetRecord where
  code : String
  name : String
  products : List (String × BoosterProduct)
  sheets : List (String × Sheet)
  cardPool : List (String × CardRecord)
deriving DecidableEq, Repr

/-- Modelled from the spec (section 3): the resolved output unit. -/
structure PackCard where
  name : String
  setCode : String
  collectorNumber : String
  rarity : String
  foil : Bool
  borderColor : String
  frameEffects : List String
  isFullArt : Bool
  sheetName : String
  crossRefId : String
deriving DecidableEq, Repr

/-- Modelled from the spec (section 3): the generated pack with the chosen
variant provenance. -/
structure GeneratedPack where
  cards : List PackCard
  variantIndex : Nat
  variantWeight : Nat
  totalWeight : Nat
deriving DecidableEq, Repr

/-- Modelled from the spec (section 4.3, unbalanced case): weighted
sampling without replacement; each draw removes the chosen entry from the
candidate pool. -/
def sampleWeighted (pool : List (String × Nat)) (count : Nat) (s : Nat) :
    List String × Nat :=
  match count with
  | 0 => ([], s)
  | c + 1 =>
    match pool with
    | [] => ([], s)
    | _ :: _ =>
      let p := weightedChoice (pool.map Prod.snd) s
      let chosen := (pool.getD p.1 ("", 0)).1
      let rest := sampleWeighted (pool.eraseIdx p.1) c p.2
      (chosen :: rest.1, rest.2)

/-- Skip the leading exhausted group pools of the round-robin queue. -/
def dropEmpty : List (String × List (String × Nat)) →
    List (String × List (String × Nat))
  | [] => []
  | (_, []) :: rest => dropEmpty rest
  | (k, e :: es) :: rest => (k, e :: es) :: rest

/-- One weighted draw inside a single group pool: the chosen identifier,
the depleted pool and the successor random state. -/
def drawGroup (pool : List (String × Nat)) (s : Nat) :
    String × List (String × Nat) × Nat :=
  let p := weightedChoice (pool.map Prod.snd) s
  ((pool.getD p.1 ("", 0)).1, pool.eraseIdx p.1, p.2)

/-- Modelled from the spec (section 4.3, balanced case): groups are cycled
round-robin, one weighted draw inside the front group per step, the
depleted group moving to the back of the queue, until count cards are
drawn or every group is exhausted. -/
def roundRobin (pools : List (String × List (String × Nat))) (count : Nat)
    (s : Nat) : List String × Nat :=
  match count with
  | 0 => ([], s)
  | c + 1 =>
    match dropEmpty pools with
    | [] => ([], s)
    | (key, pool) :: rest =>
      let d := drawGroup pool s
      let r := roundRobin (rest ++ [(key, d.2.1)]) c d.2.2
      (d.1 :: r.1, r.2)

/-- Modelled from the spec (section 4.3): the balancing keys of a sheet, in
a stable declared order, obtained from the group identifier of each entry. -/
def groupKeys (go : String → String) (entries : List (String × Nat)) :
    List String :=
  (entries.map (fun e => go e.1)).dedup

/-- Modelled from the spec (section 4.3): the partition of the entries of a
balanced sheet by balancing key. -/
def groupPools (go : String → String) (entries : List (String × Nat)) :
    List (String × List (String × Nat)) :=
  (groupKeys go entries).map
    (fun k => (k, entries.filter (fun e => go e.1 == k)))

/-- All card identifiers of a round-robin queue of group pools, in queue
order. -/
def flatIds (pools : List (String × List (String × Nat))) : List String :=
  pools.flatMap (fun p => p.2.map Prod.fst)

/-- Number of distinct card identifiers appearing in a sheet. -/
def distinctCount (sheet : Sheet) : Nat :=
  (sheet.cards.map Prod.fst).dedup.length

/-- Error message of an unsatisfiable sheet draw. -/
def insufficientMessage (requested available : Nat) : String :=
  "Sheet has " ++ toString available ++ " distinct cards, requested " ++
    toString requested

/-- Modelled from the spec (section 4.3): the sheet sampler. Fails with
InsufficientCardsError when the request exceeds the number of distinct
entries; a fixed sheet yields the first entries in declared order; a
balanced sheet is sampled round-robin by group; otherwise classic weighted
sampling without replacement is used. -/
def sampleSheet (go : String → String) (sheet : Sheet) (count : Nat)
    (s : Nat) : Except PackError (List String × Nat) :=
  if distinctCount sheet < count then
    Except.error
      (PackError.InsufficientCardsError
        (insufficientMessage count (distinctCount sheet)))
  else if sheet.fixed then
    Except.ok ((sheet.cards.take count).map Prod.fst, s)
  else if sheet.balance then
    Except.ok (roundRobin (groupPools go sheet.cards) count s)
  else
    Except.ok (sampleWeighted sheet.cards count s)

/-- Modelled from the spec (section 4.4): the variant selector. Computes
the total weight, fails with ConfigurationError when no variant carries a
positive weight, and otherwise performs one weighted choice over the
variant weight sequence. Returns index, weight, contents, total weight and
the successor random state. -/
def selectVariant (product : BoosterProduct) (s : Nat) :
    Except PackError (Nat × Nat × List (String × Nat) × Nat × Nat) :=
  let weights := product.variants.map BoosterVariant.weight
  if weights.sum = 0 then
    Except.error (PackError.ConfigurationError "product has no usable variant weights")
  else
    let p := weightedChoice weights s
    let v := product.variants.getD p.1 ⟨0, []⟩
    Except.ok (p.1, v.weight, v.contents, weights.sum, p.2)

/-- Modelled from the spec (section 4.5): run the sheet sampler once per
(sheet name, count) pair of the chosen variant contents, in declared
order, tagging every sampled identifier with the foil flag and the name of
its originating sheet. Any sampling error aborts the whole run. -/
def sampleContents (go : String → String) (sheets : List (String × Sheet)) :
    List (String × Nat) → Nat →
    Except PackError (List (String × Bool × String) × Nat)
  | [], s => Except.ok ([], s)
  | (sheetName, cnt) :: rest, s =>
    match alistGet sheetName sheets with
    | none => Except.error (PackError.DataFormatError ("unknown sheet " ++ sheetName))
    | some sheet =>
      match sampleSheet go sheet cnt s with
      | Except.error e => Except.error e
      | Except.ok (ids, s') =>
        match sampleContents go sheets rest s' with
        | Except.error e => Except.error e
        | Except.ok (tagged, s'') =>
          Except.ok (ids.map (fun id => (id, sheet.foil, sheetName)) ++ tagged, s'')

/-- Modelled from the spec (sections 4.5 and 8): the final foil status of a
drawn card, the foil flag of the originating sheet OR the card being
intrinsically foil-only. -/
def foilFlag (isFoilSheet : Bool) (rec : CardRecord) : Bool :=
  isFoilSheet || (rec.hasFoil && !rec.hasNonfoil)

/-- Modelled from the spec (section 4.5): resolution of one sampled
identifier to the fully displayed pack card. -/
def mkPackCard (rec : CardRecord) (isFoilSheet : Bool) (sheetName : String) :
    PackCard :=
  ⟨rec.name, rec.setCode, rec.collectorNumber, rec.rarity,
    foilFlag isFoilSheet rec, rec.borderColor, rec.frameEffects,
    rec.isFullArt, sheetName, rec.crossRefId⟩

/-- Default pack card used as the fallback element of positional list
access in statements. -/
def defaultPackCard : PackCard :=
  ⟨"", "", "", "", false, "", [], false, "", ""⟩

/-- Modelled from the spec (section 4.5): resolve every sampled identifier
against the card pool. -/
def resolveCards (pool : List (String × CardRecord)) :
    List (String × Bool × String) → Except PackError (List PackCard)
  | [] => Except.ok []
  | (id, fl, sn) :: rest =>
    match alistGet id pool with
    | none => Except.error (PackError.DataFormatError ("unknown card " ++ id))
    | some rec =>
      match resolveCards pool rest with
      | Except.error e => Except.error e
      | Except.ok cards => Except.ok (mkPackCard rec fl sn :: cards)

/-- Error message of a missed product lookup, enumerating the product
names actually available on the set. -/
def notFoundMessage (productName : String) (available : List String) : String :=
  "Booster product " ++ productName ++ " not found. Available products: " ++
    String.intercalate ", " available

/-- Balancing key of a card identifier, read off the card pool. -/
def groupOf (pool : List (String × CardRecord)) (id : String) : String :=
  match alistGet id pool with
  | some rec => rec.groupId
  | none => ""

/-- Modelled from the spec (section 4.5): the pack assembler entry point
generate(set_record, product_name, seed). Resolves the product (a
NotFoundError enumerates the available product names), selects a variant,
samples every sheet of its contents, resolves the cards and attaches the
variant provenance. -/
def generate (setRec : SetRecord) (productName : String) (seed : Nat) :
    Except PackError GeneratedPack :=
  match alistGet productName setRec.products with
  | none =>
    Except.error
      (PackError.NotFoundError
        (notFoundMessage productName (setRec.products.map Prod.fst)))
  | some product =>
    match selectVariant product seed with
    | Except.error e => Except.error e
    | Except.ok (vi, vw, contents, total, s) =>
      match sampleContents (groupOf setRec.cardPool) setRec.sheets contents s with
      | Except.error e => Except.error e
      | Except.ok (samples, _) =>
        match resolveCards setRec.cardPool samples with
        | Except.error e => Except.error e
        | Except.ok cards => Except.ok ⟨cards, vi, vw, total⟩

/-- From src/mtg_collector/cli/crack_pack.py (run): the CLI translates a
generation error into the message printed on stderr; a successful
generation prints the pack instead and yields no error line. -/
def crackPackCliError (setRec : SetRecord) (productName : String)
    (seed : Nat) : Option String :=
  match generate setRec productName seed with
  | Except.error e => some ("Error: " ++ e.message)
  | Except.ok _ => none

/-- Outcome of the /api/generate handler of the crack-pack web server:
either an HTTP JSON response was sent, or an exception escaped the handler
and no response body was produced. -/
inductive ApiGenerateResult where
  | response : Nat → String → ApiGenerateResult
  | packResponse : GeneratedPack → ApiGenerateResult
  | unhandled : PackError → ApiGenerateResult
deriving DecidableEq, Repr

/-- From src/mtg_collector/cli/crack_pack_server.py (_api_generate): the
handler validates the presence of set_code and product, then calls the
generator with no surrounding try block, so a generation error escapes the
handler unhandled instead of being turned into a JSON message. -/
def apiGenerate (store : List (String × SetRecord)) (setCode product : String)
    (seed : Nat) : ApiGenerateResult :=
  if setCode = "" || product = "" then
    ApiGenerateResult.response 400 "Missing set_code or product"
  else
    match alistGet setCode store with
    | none =>
      ApiGenerateResult.unhandled
        (PackError.NotFoundError ("Unknown set code: " ++ setCode))
    | some setRec =>
      match generate setRec product seed with
      | Except.error e => ApiGenerateResult.unhandled e
      | Except.ok pack => ApiGenerateResult.packResponse pack

/-- A Scryfall prices dictionary, as an association list of price kinds. -/
abbrev Prices := List (String × String)

/-- From src/mtg_collector/cli/crack_pack_server.py: the 24-hour
time-to-live of the in-memory price cache, in seconds. -/
def PRICE_TTL : Nat := 86400

/-- The price cache: scryfall id mapped to fetch timestamp and prices. -/
abbrev PriceCache := List (String × Nat × Prices)

/-- From src/mtg_collector/cli/crack_pack_server.py (_fetch_prices): the
cached prices of an identifier, provided the entry exists and its age is
strictly below the time-to-live. -/
def cacheFresh (cache : PriceCache) (now : Nat) (sid : String) :
    Option Prices :=
  match alistGet sid cache with
  | some tsp => if now - tsp.1 < PRICE_TTL then some tsp.2 else none
  | none => none

/-- From src/mtg_collector/cli/crack_pack_server.py (_fetch_prices, first
loop): split the requested identifiers into cache hits fresher than the
time-to-live, and the list of identifiers still to fetch; empty
identifiers are skipped. -/
def partitionIds (cache : PriceCache) (now : Nat) :
    List String → List (String × Prices) × List String
  | [] => ([], [])
  | sid :: rest =>
    let p := partitionIds cache now rest
    if sid = "" then p
    else
      match cacheFresh cache now sid with
      | some prices => ((sid, prices) :: p.1, p.2)
      | none => (p.1, sid :: p.2)

/-- From src/mtg_collector/cli/crack_pack_server.py (_fetch_prices, fetch
loop): request each missing identifier from the Scryfall collection
endpoint; every card present in the response is stored into the cache
stamped with the current time and added to the result. -/
def fetchLoop (remote : String → Option Prices) (now : Nat) :
    List String → PriceCache → List (String × Prices) × PriceCache
  | [], cache => ([], cache)
  | sid :: rest, cache =>
    match remote sid with
    | none => fetchLoop remote now rest cache
    | some prices =>
      let r := fetchLoop remote now rest ((sid, (now, prices)) :: cache)
      ((sid, prices) :: r.1, r.2)

/-- From src/mtg_collector/cli/crack_pack_server.py (_fetch_prices):
serve fresh cache entries, fetch the rest from the remote endpoint and
return the merged result together with the updated cache. -/
def fetchPrices (cache : PriceCache) (now : Nat)
    (remote : String → Option Prices) (ids : List String) :
    List (String × Prices) × PriceCache :=
  let p := partitionIds cache now ids
  let f := fetchLoop remote now p.2 cache
  (p.1 ++ f.1, f.2)

/-- A card printing as returned by the Scryfall search endpoint; only the
release date matters for the ordering contract, kept as a number. -/
structure Printing where
  released : Nat
deriving DecidableEq, Repr

/-- A Scryfall search response: the object tag and the data list. -/
structure SearchResponse where
  object : String
  data : List Printing
deriving DecidableEq, Repr

/-- The query parameters sent to the Scryfall card search endpoint. -/
structure ScryfallRequest where
  q : String
  unique : String
  order : String
  dir : String
deriving DecidableEq, Repr

/-- From src/mtg_collector.py (ScryfallAPI.search_card): the search query
string, an exact-name query optionally narrowed by set code and collector
number. -/
def buildQuery (name : String) (setCode cn : Option String) : String :=
  match setCode, cn with
  | some sc, some n => "!\"" ++ name ++ "\" set:" ++ sc ++ " cn:" ++ n
  | some sc, none => "!\"" ++ name ++ "\" set:" ++ sc
  | none, _ => "!\"" ++ name ++ "\""

/-- From src/mtg_collector.py (ScryfallAPI.search_card): the request sent,
asking for unique prints ordered by release date, descending. -/
def searchRequest (name : String) (setCode cn : Option String) :
    ScryfallRequest :=
  ⟨buildQuery name setCode cn, "prints", "released", "desc"⟩

/-- From src/mtg_collector.py (ScryfallAPI.search_card): perform the
search; on a request error return the empty list, otherwise return the
data of a list response and the empty list for any other object tag. -/
def searchCard (session : ScryfallRequest → Except String SearchResponse)
    (name : String) (setCode cn : Option String) : List Printing :=
  match session (searchRequest name setCode cn) with
  | Except.error _ => []
  | Except.ok resp => if resp.object == "list" then resp.data else []

/-- Sorted most recent first: every later element has a release date at
most that of any earlier element. -/
def sortedByReleaseDesc (l : List Printing) : Prop :=
  List.Pairwise (fun a b => b.released ≤ a.released) l

/-- A pure path: absolute flag plus components, mirroring pathlib. -/
structure PurePath where
  isAbs : Bool
  comps : List String
deriving DecidableEq, Repr

/-- Split a character list on slashes, keeping the collected component
characters in reverse order while scanning. -/
def splitSlashAux : List Char → List Char → List String
  | [], acc => [String.mk acc.reverse]
  | c :: cs, acc =>
    if c = '/' then String.mk acc.reverse :: splitSlashAux cs []
    else splitSlashAux cs (c :: acc)

/-- Path components of a string, dropping empty and single-dot components
exactly as the pathlib constructor does. -/
def splitPath (s : String) : List String :=
  (splitSlashAux s.toList []).filter (fun c => c != "" && c != ".")

/-- Parse a path string; a leading slash makes it absolute. -/
def parsePath (s : String) : PurePath :=
  ⟨s.toList.head? == some '/', splitPath s⟩

/-- The pathlib slash operator: an absolute right operand replaces the
base entirely. -/
def joinPath (base other : PurePath) : PurePath :=
  if other.isAbs then other else ⟨base.isAbs, base.comps ++ other.comps⟩

/-- Lexical normalisation of path components: a parent reference removes
the preceding component, and at the root it stays at the root. -/
def resolveComps (cs : List String) : List String :=
  cs.foldl (fun acc c => if c = ".." then acc.dropLast else acc ++ [c]) []

/-- Path.resolve of pathlib, modelled lexically: the path is made absolute
against the working directory and parent references are eliminated. -/
def resolvePath (cwd : PurePath) (p : PurePath) : PurePath :=
  if p.isAbs then ⟨true, resolveComps p.comps⟩
  else ⟨true, resolveComps (cwd.comps ++ p.comps)⟩

/-- Path.is_relative_to of pathlib on already resolved paths. -/
def isRelativeToP (p base : PurePath) : Bool :=
  (p.isAbs == base.isAbs) && base.comps.isPrefixOf p.comps

/-- Outcome of the static file handler: a 404 JSON error with no file
bytes, or the content of the named file. -/
inductive StaticResponse where
  | notFound : StaticResponse
  | fileContent : PurePath → StaticResponse
deriving DecidableEq, Repr

/-- From src/mtg_collector/cli/crack_pack_server.py (_serve_static): join
the requested filename onto the static directory, answer 404 whenever the
resolved path is not inside the resolved static directory or is not a
file, and only then serve the file bytes. -/
def serveStatic (cwd staticDir : PurePath) (isFile : PurePath → Bool)
    (filename : String) : StaticResponse :=
  let filepath := joinPath staticDir (parsePath filename)
  if !(isRelativeToP (resolvePath cwd filepath) (resolvePath cwd staticDir)) then
    StaticResponse.notFound
  else if !(isFile filepath) then StaticResponse.notFound
  else StaticResponse.fileContent filepath

/-- The per-card hints record extracted from a card image. -/
structure CardHints where
  set_code : Option String
  collector_number : Option String
  foil : Bool
  condition : String
deriving DecidableEq, Repr

/-- From src/mtg_collector.py (ClaudeVision.get_card_details): the hints
returned whenever the vision call or the parsing of its response fails. -/
def defaultHints : CardHints := ⟨none, none, false, "Near Mint"⟩

/-- From src/mtg_collector.py: strip surrounding markdown code fences from
the model response before JSON parsing. -/
def stripCodeFence (t : String) : String :=
  let t' := t.trim
  if t'.startsWith "\x60\x60\x60" then
    String.intercalate "\n" (((t'.splitOn "\n").drop 1).dropLast)
  else t'

/-- From src/mtg_collector.py (ClaudeVision.identify_cards): the vision
call and the parsing of its response happen inside one try block; a failed
call or an unparsable response yields the empty list of names. -/
def identifyCards (apiResult : Except String String)
    (parseNames : String → Option (List String)) : List String :=
  match apiResult with
  | Except.error _ => []
  | Except.ok text =>
    match parseNames (stripCodeFence text) with
    | none => []
    | some names => names

/-- From src/mtg_collector.py (ClaudeVision.get_card_details): the vision
call and the parsing of its response happen inside one try block; any
failure yields the default hints record. -/
def getCardDetails (apiResult : Except String String)
    (parseHints : String → Option CardHints) : CardHints :=
  match apiResult with
  | Except.error _ => defaultHints
  | Except.ok text =>
    match parseHints (stripCodeFence text) with
    | none => defaultHints
    | some d => d

/-- Example card record used by the concrete configurations below. -/
def exCard (id g : String) : String × CardRecord :=
  (id, ⟨"N" ++ id, "EOE", id, "common", "black", [], false, g, true, true,
    "sf-" ++ id⟩)

/-- Example set configuration: one product with a single variant drawing
two commons and one card from a foil rare sheet. -/
def exSet : SetRecord :=
  ⟨"EOE", "Edge of Eternities",
   [("play", ⟨[⟨1, [("common", 2), ("rare", 1)]⟩]⟩)],
   [("common", ⟨[("c1", 2), ("c2", 3), ("c3", 1)], 6, false, false, false⟩),
    ("rare", ⟨[("r1", 4), ("r2", 1)], 5, true, false, false⟩)],
   [exCard "c1" "g1", exCard "c2" "g1", exCard "c3" "g2", exCard "r1" "g3",
    exCard "r2" "g3"]⟩

/-- The pack generated from the example configuration at seed 42. -/
def exPack : GeneratedPack :=
  (generate exSet "play" 42).toOption.getD ⟨[], 0, 0, 0⟩

/-- Example balanced sheet over the example card pool: two groups, g1
holding c1 and c2, g2 holding c3. -/
def exBalSheet : Sheet := ⟨[("c1", 2), ("c3", 1), ("c2", 3)], 6, false, true, false⟩

/-- Example plain weighted sheet with three distinct cards. -/
def exPlainSheet : Sheet := ⟨[("c1", 2), ("c2", 3), ("c3", 1)], 6, false, false, false⟩

/-- Example set configuration whose single product requests three cards
from a sheet holding only two distinct cards. -/
def exShortSet : SetRecord :=
  ⟨"EOE", "Edge of Eternities",
   [("play", ⟨[⟨1, [("tiny", 3)]⟩]⟩)],
   [("tiny", ⟨[("c1", 2), ("c2", 3)], 5, false, false, false⟩)],
   [exCard "c1" "g1", exCard "c2" "g1"]⟩

/-- Example price cache for the witness: a fresh entry for card a and an
expired one for card b. -/
def exCache : PriceCache :=
  [("a", (50000, [("usd", "1.0")])), ("b", (0, [("usd", "9.9")]))]

/-- Example remote pricing endpoint for the witness. -/
def exRemote : String → Option Prices := fun sid =>
  if sid = "b" then some [("usd", "2.0")]
  else if sid = "c" then some [("usd", "3.0")]
  else none

/-- Example search endpoint for the witness, honouring the requested
descending release ordering. -/
def exSession : ScryfallRequest → Except String SearchResponse := fun _ =>
  Except.ok ⟨"list", [⟨20250801⟩, ⟨20240105⟩, ⟨20240105⟩]⟩

theorem pickIndex_lt_length (ws : List Nat) (r : Nat) (h : r < ws.sum) :
    pickIndex r ws < ws.length := by
  induction ws generalizing r with
  | nil => simp at h
  | cons w ws ih =>
    by_cases hr : r < w
    · simp [pickIndex, hr]
    · have hsum : r - w < ws.sum := by
        simp only [List.sum_cons] at h
        omega
      simp only [pickIndex, hr, if_false, List.length_cons]
      exact Nat.succ_lt_succ (ih _ hsum)

theorem uniformIndex_lt (n s : Nat) (h : 0 < n) : (uniformIndex n s).1 < n := by
  simp only [uniformIndex]
  rw [if_neg (Nat.pos_iff_ne_zero.mp h)]
  exact Nat.mod_lt _ h

/-- C1: for every set record, product name and fixed integer seed, two
calls of generate over the same loaded configuration yield identical
GeneratedPack values: same card sequence in the same order, same per-card
foil flags, same variant index, variant weight and total weight. -/
theorem generate_deterministic (setRec : SetRecord) (productName : String)
    (seed : Nat) (p1 p2 : GeneratedPack)
    (h1 : generate setRec productName seed = Except.ok p1)
    (h2 : generate setRec productName seed = Except.ok p2) :
    p1.cards = p2.cards ∧
    (∀ i d, (p1.cards.getD i d).foil = (p2.cards.getD i d).foil) ∧
    p1.variantIndex = p2.variantIndex ∧
    p1.variantWeight = p2.variantWeight ∧
    p1.totalWeight = p2.totalWeight := by
  rw [h1] at h2
  injection h2 with h
  subst h
  exact ⟨rfl, fun _ _ => rfl, rfl, rfl, rfl⟩

/-- Witness for C1: the example configuration at seed 42 generates a pack,
and the determinism theorem applies to the two identical calls. -/
theorem generate_deterministic_witness :
    generate exSet "play" 42 = Except.ok exPack ∧
    (exPack.cards = exPack.cards ∧
      (∀ i d, (exPack.cards.getD i d).foil = (exPack.cards.getD i d).foil) ∧
      exPack.variantIndex = exPack.variantIndex ∧
      exPack.variantWeight = exPack.variantWeight ∧
      exPack.totalWeight = exPack.totalWeight) :=
  ⟨rfl, generate_deterministic exSet "play" 42 exPack exPack rfl rfl⟩

/-- C6 counterexample: the web server generate endpoint does not translate
a NotFoundError for an unknown product into a JSON message: the handler
calls the generator with no surrounding try block, so the error escapes
unhandled and no actionable response is produced. -/
theorem api_generate_unknown_product_unhandled :
    apiGenerate [("EOE", exSet)] "EOE" "collector" 7 =
      ApiGenerateResult.unhandled
        (PackError.NotFoundError
          "Booster product collector not found. Available products: play") := by
  rfl

/-- C6 (amended): for every valid set record and product name absent from
the products of the set, generate fails with a NotFoundError whose message
enumerates the actual available product names, and the CLI caller
translates the error into an actionable message carrying that enumeration;
the server endpoint, by contrast, leaves the error unhandled. -/
theorem product_not_found_enumerates (setRec : SetRecord)
    (productName : String) (seed : Nat)
    (h : alistGet productName setRec.products = none) :
    generate setRec productName seed =
      Except.error
        (PackError.NotFoundError
          (notFoundMessage productName (setRec.products.map Prod.fst))) ∧
    crackPackCliError setRec productName seed =
      some ("Error: " ++
        notFoundMessage productName (setRec.products.map Prod.fst)) := by
  refine ⟨?_, ?_⟩
  · simp [generate, h]
  · simp [crackPackCliError, generate, h, PackError.message]

/-- Witness for C6: the example set has no product named collector, and
both the engine error and the CLI translation enumerate the available
product list. -/
theorem product_not_found_enumerates_witness :
    alistGet "collector" exSet.products = none ∧
    (generate exSet "collector" 7 =
      Except.error
        (PackError.NotFoundError
          (notFoundMessage "collector" (exSet.products.map Prod.fst))) ∧
    crackPackCliError exSet "collector" 7 =
      some ("Error: " ++
        notFoundMessage "collector" (exSet.products.map Prod.fst))) :=
  ⟨rfl, product_not_found_enumerates exSet "collector" 7 rfl⟩

/-- C9: the static file handler serves content only when the resolved
request path stays inside the resolved static directory; whenever the
resolved join escapes the static directory, for instance through parent
path components, the handler answers 404 and no file bytes are produced. -/
theorem serve_static_confined (cwd staticDir : PurePath)
    (isFile : PurePath → Bool) (filename : String) :
    (∀ p, serveStatic cwd staticDir isFile filename =
        StaticResponse.fileContent p →
      isRelativeToP (resolvePath cwd p) (resolvePath cwd staticDir) = true) ∧
    (isRelativeToP (resolvePath cwd (joinPath staticDir (parsePath filename)))
        (resolvePath cwd staticDir) = false →
      serveStatic cwd staticDir isFile filename = StaticResponse.notFound) := by
  unfold serveStatic
  constructor
  · intro p hp
    by_cases hrel : isRelativeToP
        (resolvePath cwd (joinPath staticDir (parsePath filename)))
        (resolvePath cwd staticDir) = true
    · simp only [hrel, Bool.not_true, Bool.false_eq_true, if_false] at hp
      by_cases hf : isFile (joinPath staticDir (parsePath filename)) = true
      · simp only [hf, Bool.not_true, Bool.false_eq_true, if_false] at hp
        injection hp with hp
        subst hp
        exact hrel
      · simp [Bool.not_eq_true] at hf
        simp [hf] at hp
    · simp only [Bool.not_eq_true] at hrel
      simp [hrel] at hp
  · intro hrel
    simp [hrel]

/-- Witness for C9: a traversal request built from parent components
escapes the static directory and is answered with 404. -/
theorem serve_static_confined_witness :
    isRelativeToP
      (resolvePath ⟨true, []⟩
        (joinPath ⟨true, ["srv", "static"]⟩ (parsePath "../../etc/passwd")))
      (resolvePath ⟨true, []⟩ ⟨true, ["srv", "static"]⟩) = false ∧
    serveStatic ⟨true, []⟩ ⟨true, ["srv", "static"]⟩ (fun _ => true)
      "../../etc/passwd" = StaticResponse.notFound :=
  ⟨by decide,
    (serve_static_confined ⟨true, []⟩ ⟨true, ["srv", "static"]⟩ (fun _ => true)
      "../../etc/passwd").2 (by decide)⟩

/-- C10: neither image-identification operation propagates a failure to
its caller: a failed vision call or an unparsable response makes
identifyCards return the empty list and getCardDetails return the default
hints record with no set code, no collector number, nonfoil and Near Mint
condition. -/
theorem vision_failures_default (parseNames : String → Option (List String))
    (parseHints : String → Option CardHints) (e text : String)
    (hn : parseNames (stripCodeFence text) = none)
    (hh : parseHints (stripCodeFence text) = none) :
    identifyCards (Except.error e) parseNames = [] ∧
    identifyCards (Except.ok text) parseNames = [] ∧
    getCardDetails (Except.error e) parseHints = defaultHints ∧
    getCardDetails (Except.ok text) parseHints = defaultHints ∧
    defaultHints = ⟨none, none, false, "Near Mint"⟩ := by
  refine ⟨rfl, ?_, rfl, ?_, rfl⟩
  · simp [identifyCards, hn]
  · simp [getCardDetails, hh]

/-- C5: when the requested count exceeds the number of distinct entries of
a sheet, the sheet sampler fails with an InsufficientCardsError, the error
is propagated, not retried, by the per-sheet sampling loop, and an
enclosing generation call whose chosen variant requests that count returns
the same error and no partial pack. -/
theorem insufficient_cards_abort (go : String → String) (sheet : Sheet)
    (count s : Nat) (hcount : distinctCount sheet < count) :
    (sampleSheet go sheet count s =
      Except.error (PackError.InsufficientCardsError
        (insufficientMessage count (distinctCount sheet)))) ∧
    (∀ sheets sheetName rest s₂, alistGet sheetName sheets = some sheet →
      sampleContents go sheets ((sheetName, count) :: rest) s₂ =
        Except.error (PackError.InsufficientCardsError
          (insufficientMessage count (distinctCount sheet)))) ∧
    (∀ (setRec : SetRecord) productName seed w sheetName rest₂,
      0 < w →
      alistGet productName setRec.products =
        some ⟨[⟨w, (sheetName, count) :: rest₂⟩]⟩ →
      alistGet sheetName setRec.sheets = some sheet →
      generate setRec productName seed =
        Except.error (PackError.InsufficientCardsError
          (insufficientMessage count (distinctCount sheet)))) := by
  have hsample : ∀ (go' : String → String) (s' : Nat),
      sampleSheet go' sheet count s' =
        Except.error (PackError.InsufficientCardsError
          (insufficientMessage count (distinctCount sheet))) := by
    intro go' s'
    simp [sampleSheet, hcount]
  have hcontents : ∀ (go' : String → String) sheets sheetName rest s₂,
      alistGet sheetName sheets = some sheet →
      sampleContents go' sheets ((sheetName, count) :: rest) s₂ =
        Except.error (PackError.InsufficientCardsError
          (insufficientMessage count (distinctCount sheet))) := by
    intro go' sheets sheetName rest s₂ hlook
    simp [sampleContents, hlook, hsample go' s₂]
  refine ⟨hsample go s, hcontents go, ?_⟩
  intro setRec productName seed w sheetName rest₂ hw hprod hsheet
  have hwne : w ≠ 0 := Nat.pos_iff_ne_zero.mp hw
  have hr : rngNext seed % w < w := Nat.mod_lt _ hw
  simp only [generate, hprod]
  simp only [selectVariant, List.map_cons, List.map_nil, List.sum_cons,
    List.sum_nil, Nat.add_zero]
  rw [if_neg hwne]
  simp only [weightedChoice, uniformIndex, List.sum_cons, List.sum_nil,
    Nat.add_zero]
  rw [if_neg hwne]
  simp only [pickIndex, hr, if_pos, List.getD_cons_zero]
  rw [hcontents (groupOf setRec.cardPool) setRec.sheets sheetName rest₂ _ hsheet]

/-- Witness for C5: the example short sheet holds two distinct cards while
three are requested; the sampler, the sampling loop and the generation
call all fail with the same InsufficientCardsError. -/
theorem insufficient_cards_abort_witness :
    distinctCount ⟨[("c1", 2), ("c2", 3)], 5, false, false, false⟩ < 3 ∧
    generate exShortSet "play" 9 =
      Except.error (PackError.InsufficientCardsError
        (insufficientMessage 3
          (distinctCount ⟨[("c1", 2), ("c2", 3)], 5, false, false, false⟩))) :=
  ⟨by decide,
    (insufficient_cards_abort (groupOf exShortSet.cardPool)
      ⟨[("c1", 2), ("c2", 3)], 5, false, false, false⟩ 3 9 (by decide)).2.2
      exShortSet "play" 9 1 "tiny" [] (by decide) rfl rfl⟩

theorem cacheFresh_some (cache : PriceCache) (now : Nat) (sid : String)
    (p : Prices) :
    cacheFresh cache now sid = some p ↔
      ∃ ts, alistGet sid cache = some (ts, p) ∧ now - ts < PRICE_TTL := by
  unfold cacheFresh
  cases hc : alistGet sid cache with
  | none => simp [hc]
  | some tsp =>
    by_cases hf : now - tsp.1 < PRICE_TTL
    · simp only [hf, if_true]
      constructor
      · intro h
        injection h with h
        exact ⟨tsp.1, by rw [← h], hf⟩
      · rintro ⟨ts, hq, -⟩
        injection hq with hq
        rw [hq]
    · simp only [hf, if_false]
      constructor
      · intro h
        exact Option.noConfusion h
      · rintro ⟨ts, hq, hlt⟩
        injection hq with hq
        rw [hq] at hf
        exact absurd hlt hf

theorem cacheFresh_none (cache : PriceCache) (now : Nat) (sid : String) :
    cacheFresh cache now sid = none ↔
      ¬ ∃ ts q, alistGet sid cache = some (ts, q) ∧ now - ts < PRICE_TTL := by
  unfold cacheFresh
  cases hc : alistGet sid cache with
  | none =>
    simp only [iff_true_intro rfl, true_iff]
    rintro ⟨ts, q, hq, -⟩
    exact Option.noConfusion hq
  | some tsp =>
    by_cases hf : now - tsp.1 < PRICE_TTL
    · simp only [hf, if_true]
      constructor
      · intro h
        exact Option.noConfusion h
      · intro h
        exact absurd ⟨tsp.1, tsp.2, by rw [Prod.mk.eta], hf⟩ h
    · simp only [hf, if_false, true_iff, iff_true_intro rfl]
      rintro ⟨ts, q, hq, hlt⟩
      injection hq with hq
      rw [hq] at hf
      exact absurd hlt hf

theorem partitionIds_fst_mem (cache : PriceCache) (now : Nat)
    (ids : List String) (sid : String) (p : Prices)
    (h : (sid, p) ∈ (partitionIds cache now ids).1) :
    ∃ ts, alistGet sid cache = some (ts, p) ∧ now - ts < PRICE_TTL := by
  induction ids with
  | nil => simp [partitionIds] at h
  | cons sid' rest ih =>
    simp only [partitionIds] at h
    by_cases he : sid' = ""
    · rw [if_pos he] at h
      exact ih h
    · rw [if_neg he] at h
      cases hc : cacheFresh cache now sid' with
      | none =>
        rw [hc] at h
        exact ih h
      | some prices =>
        rw [hc] at h
        rcases List.mem_cons.mp h with heq | hmem
        · have h1 : sid = sid' := congrArg Prod.fst heq
          have h2 : p = prices := congrArg Prod.snd heq
          subst h1
          subst h2
          exact (cacheFresh_some cache now sid p).mp hc
        · exact ih hmem

theorem partitionIds_snd_mem (cache : PriceCache) (now : Nat)
    (ids : List String) (sid : String) :
    sid ∈ (partitionIds cache now ids).2 ↔
      (sid ∈ ids ∧ sid ≠ "" ∧
        ¬ ∃ ts q, alistGet sid cache = some (ts, q) ∧ now - ts < PRICE_TTL) := by
  induction ids with
  | nil => simp [partitionIds]
  | cons sid' rest ih =>
    simp only [partitionIds]
    by_cases he : sid' = ""
    · rw [if_pos he, ih]
      subst he
      constructor
      · rintro ⟨h1, h2, h3⟩
        exact ⟨List.mem_cons_of_mem _ h1, h2, h3⟩
      · rintro ⟨h1, h2, h3⟩
        rcases List.mem_cons.mp h1 with rfl | h1
        · exact absurd rfl h2
        · exact ⟨h1, h2, h3⟩
    · rw [if_neg he]
      cases hc : cacheFresh cache now sid' with
      | none =>
        simp only [List.mem_cons]
        constructor
        · rintro (rfl | hmem)
          · exact ⟨Or.inl rfl, he, (cacheFresh_none cache now sid).mp hc⟩
          · rcases ih.mp hmem with ⟨h1, h2, h3⟩
            exact ⟨Or.inr h1, h2, h3⟩
        · rintro ⟨h1, h2, h3⟩
          rcases h1 with rfl | h1
          · exact Or.inl rfl
          · exact Or.inr (ih.mpr ⟨h1, h2, h3⟩)
      | some prices =>
        simp only
        rw [ih]
        constructor
        · rintro ⟨h1, h2, h3⟩
          exact ⟨List.mem_cons_of_mem _ h1, h2, h3⟩
        · rintro ⟨h1, h2, h3⟩
          rcases List.mem_cons.mp h1 with rfl | h1
          · rcases (cacheFresh_some cache now sid prices).mp hc with ⟨ts, hq, hlt⟩
            exact absurd ⟨ts, prices, hq, hlt⟩ h3
          · exact ⟨h1, h2, h3⟩

theorem fetchLoop_preserves (remote : String → Option Prices) (now : Nat)
    (l : List String) (cache : PriceCache) (sid : String) (v : Prices)
    (hcache : alistGet sid cache = some (now, v))
    (hremote : remote sid = some v) :
    alistGet sid (fetchLoop remote now l cache).2 = some (now, v) := by
  induction l generalizing cache with
  | nil => exact hcache
  | cons sid' rest ih =>
    simp only [fetchLoop]
    cases hr : remote sid' with
    | none => exact ih cache hcache
    | some q =>
      simp only
      apply ih
      by_cases he : sid = sid'
      · subst he
        rw [hremote] at hr
        injection hr with hr
        simp [alistGet, hr]
      · simpa [alistGet, he] using hcache

theorem fetchLoop_fst_mem (remote : String → Option Prices) (now : Nat)
    (l : List String) (cache : PriceCache) (sid : String) (p : Prices)
    (h : (sid, p) ∈ (fetchLoop remote now l cache).1) :
    remote sid = some p ∧
      alistGet sid (fetchLoop remote now l cache).2 = some (now, p) := by
  induction l generalizing cache with
  | nil => simp [fetchLoop] at h
  | cons sid' rest ih =>
    simp only [fetchLoop] at h ⊢
    cases hr : remote sid' with
    | none =>
      rw [hr] at h
      exact ih cache h
    | some q =>
      rw [hr] at h
      simp only at h ⊢
      rcases List.mem_cons.mp h with heq | hmem
      · have h1 : sid = sid' := congrArg Prod.fst heq
        have h2 : p = q := congrArg Prod.snd heq
        subst h1
        subst h2
        refine ⟨hr, ?_⟩
        exact fetchLoop_preserves remote now rest _ sid p (by simp [alistGet]) hr
      · exact ih _ hmem

/-- C7: every price entry of a fetch-prices result is either served from a
cache entry strictly fresher than the 24-hour time-to-live, or fetched
from the remote endpoint and re-stored stamped with the current time; an
identifier of the request is queued for a remote fetch exactly when it is
nonempty and has no fresh cache entry. -/
theorem fetch_prices_cache_ttl (cache : PriceCache) (now : Nat)
    (remote : String → Option Prices) (ids : List String) :
    (∀ sid p, (sid, p) ∈ (fetchPrices cache now remote ids).1 →
      (∃ ts, alistGet sid cache = some (ts, p) ∧ now - ts < PRICE_TTL) ∨
      (remote sid = some p ∧
        alistGet sid (fetchPrices cache now remote ids).2 = some (now, p))) ∧
    (∀ sid, sid ∈ (partitionIds cache now ids).2 ↔
      (sid ∈ ids ∧ sid ≠ "" ∧
        ¬ ∃ ts q, alistGet sid cache = some (ts, q) ∧ now - ts < PRICE_TTL)) := by
  constructor
  · intro sid p h
    rcases List.mem_append.mp h with hl | hr
    · exact Or.inl (partitionIds_fst_mem cache now ids sid p hl)
    · exact Or.inr (fetchLoop_fst_mem remote now _ cache sid p hr)
  · intro sid
    exact partitionIds_snd_mem cache now ids sid

/-- Witness for C7: at time 90000 the entry of card a is fresh and served
from the cache, while cards b and c are queued for the remote fetch. -/
theorem fetch_prices_cache_ttl_witness :
    (("a", [("usd", "1.0")]) ∈
      (fetchPrices exCache 90000 exRemote ["a", "b", "", "c"]).1) ∧
    ((∃ ts, alistGet "a" exCache = some (ts, [("usd", "1.0")]) ∧
        90000 - ts < PRICE_TTL) ∨
      (exRemote "a" = some [("usd", "1.0")] ∧
        alistGet "a" (fetchPrices exCache 90000 exRemote ["a", "b", "", "c"]).2 =
          some (90000, [("usd", "1.0")]))) ∧
    ("b" ∈ (partitionIds exCache 90000 ["a", "b", "", "c"]).2 ↔
      ("b" ∈ ["a", "b", "", "c"] ∧ "b" ≠ "" ∧
        ¬ ∃ ts q, alistGet "b" exCache = some (ts, q) ∧ 90000 - ts < PRICE_TTL)) :=
  ⟨by decide,
    (fetch_prices_cache_ttl exCache 90000 exRemote ["a", "b", "", "c"]).1
      "a" [("usd", "1.0")] (by decide),
    (fetch_prices_cache_ttl exCache 90000 exRemote ["a", "b", "", "c"]).2 "b"⟩

/-- C8: the printing search sends a request ordered by release date,
descending; whenever the search endpoint honours the requested ordering,
the returned candidate list is sorted most recent first. -/
theorem search_card_sorted
    (session : ScryfallRequest → Except String SearchResponse)
    (name : String) (setCode cn : Option String)
    (hs : ∀ req resp, req.order = "released" → req.dir = "desc" →
      session req = Except.ok resp → sortedByReleaseDesc resp.data) :
    sortedByReleaseDesc (searchCard session name setCode cn) ∧
    (searchRequest name setCode cn).order = "released" ∧
    (searchRequest name setCode cn).dir = "desc" := by
  refine ⟨?_, rfl, rfl⟩
  unfold searchCard
  cases hresp : session (searchRequest name setCode cn) with
  | error e => exact List.Pairwise.nil
  | ok resp =>
    have hsorted := hs _ resp rfl rfl hresp
    by_cases hobj : (resp.object == "list") = true
    · simpa [hobj] using hsorted
    · simp only [hobj, Bool.false_eq_true, if_false]
      exact List.Pairwise.nil

/-- Witness for C8: a concrete session returning release-sorted data makes
the search return a most-recent-first list. -/
theorem search_card_sorted_witness :
    sortedByReleaseDesc (searchCard exSession "Lightning Bolt" none none) ∧
    (searchRequest "Lightning Bolt" none none).order = "released" ∧
    (searchRequest "Lightning Bolt" none none).dir = "desc" :=
  search_card_sorted exSession "Lightning Bolt" none none
    (by
      intro req resp _ _ h
      injection h with h
      rw [← h]
      unfold sortedByReleaseDesc
      decide)

theorem map_eraseIdx' {α β : Type} (f : α → β) (l : List α) (i : Nat) :
    (l.eraseIdx i).map f = (l.map f).eraseIdx i := by
  induction l generalizing i with
  | nil => simp
  | cons a t ih =>
    cases i with
    | zero => simp [List.eraseIdx]
    | succ j => simp [List.eraseIdx, ih j]

theorem perm_getElem_cons_eraseIdx {α : Type} (l : List α) (i : Nat)
    (h : i < l.length) : l.Perm (l[i] :: l.eraseIdx i) := by
  induction l generalizing i with
  | nil => simp at h
  | cons a t ih =>
    cases i with
    | zero => simp [List.eraseIdx]
    | succ j =>
      have hj : j < t.length := by simpa using h
      have h1 : t.Perm (t[j] :: t.eraseIdx j) := ih j hj
      have h2 : (a :: t).Perm (a :: t[j] :: t.eraseIdx j) := h1.cons a
      have h3 : (a :: t[j] :: t.eraseIdx j).Perm (t[j] :: a :: t.eraseIdx j) :=
        List.Perm.swap _ _ _
      simpa [List.eraseIdx] using h2.trans h3

theorem nodup_getElem_not_mem_eraseIdx {α : Type} (l : List α)
    (hn : l.Nodup) (i : Nat) (h : i < l.length) : l[i] ∉ l.eraseIdx i := by
  intro hmem
  rcases List.mem_eraseIdx_iff_getElem.mp hmem with ⟨j, hj, hne, heq⟩
  exact hne (hn.getElem_inj_iff.mp heq)

theorem weightedChoice_fst_lt (pool : List (String × Nat)) (s : Nat)
    (hne : pool ≠ []) (hpos : ∀ e ∈ pool, 0 < e.2) :
    (weightedChoice (pool.map Prod.snd) s).1 < pool.length := by
  have hsum : 0 < (pool.map Prod.snd).sum := by
    apply List.sum_pos
    · intro x hx
      rcases List.mem_map.mp hx with ⟨e, he, rfl⟩
      exact hpos e he
    · simpa using hne
  have hr : (uniformIndex (pool.map Prod.snd).sum s).1 < (pool.map Prod.snd).sum :=
    uniformIndex_lt _ s hsum
  have := pickIndex_lt_length (pool.map Prod.snd) _ hr
  simpa [weightedChoice] using this

theorem sampleWeighted_spec (count : Nat) :
    ∀ (pool : List (String × Nat)) (s : Nat),
    (pool.map Prod.fst).Nodup →
    (∀ e ∈ pool, 0 < e.2) →
    count ≤ pool.length →
    (sampleWeighted pool count s).1.length = count ∧
    (sampleWeighted pool count s).1.Nodup ∧
    ∀ x ∈ (sampleWeighted pool count s).1, x ∈ pool.map Prod.fst := by
  induction count with
  | zero =>
    intro pool s _ _ _
    exact ⟨rfl, List.Pairwise.nil, by simp [sampleWeighted]⟩
  | succ c ih =>
    intro pool s hnodup hpos hcount
    cases pool with
    | nil => simp at hcount
    | cons hd tl =>
      set pool := hd :: tl with hpool
      have hne : pool ≠ [] := by simp [hpool]
      have hidx : (weightedChoice (pool.map Prod.snd) s).1 < pool.length :=
        weightedChoice_fst_lt pool s hne hpos
      set idx := (weightedChoice (pool.map Prod.snd) s).1 with hidxdef
      have hgetD : pool.getD idx ("", 0) = pool[idx] :=
        List.getD_eq_getElem pool ("", 0) hidx
      have hidxm : idx < (pool.map Prod.fst).length := by
        simpa using hidx
      have herl : (pool.eraseIdx idx).length + 1 = pool.length :=
        List.length_eraseIdx_add_one hidx
      have hrecn : ((pool.eraseIdx idx).map Prod.fst).Nodup := by
        rw [map_eraseIdx']
        exact ((pool.map Prod.fst).eraseIdx_sublist idx).nodup hnodup
      have hrecp : ∀ e ∈ pool.eraseIdx idx, 0 < e.2 := fun e he =>
        hpos e ((pool.eraseIdx_sublist idx).subset he)
      have hrecc : c ≤ (pool.eraseIdx idx).length := by omega
      obtain ⟨ihl, ihn, ihs⟩ :=
        ih (pool.eraseIdx idx) (weightedChoice (pool.map Prod.snd) s).2
          hrecn hrecp hrecc
      have hout : (sampleWeighted pool (c + 1) s).1 =
          pool[idx].1 ::
            (sampleWeighted (pool.eraseIdx idx)
              c (weightedChoice (pool.map Prod.snd) s).2).1 := by
        conv_lhs => rw [hpool]
        rw [sampleWeighted]
        simp only [← hpool, ← hidxdef, hgetD]
      rw [hout]
      have hchosen : pool[idx].1 = (pool.map Prod.fst)[idx] := by
        simp
      refine ⟨by simp [ihl], ?_, ?_⟩
      · apply List.Nodup.cons
        · intro hmem
          have hsub : pool[idx].1 ∈ (pool.map Prod.fst).eraseIdx idx := by
            have := ihs _ hmem
            rw [map_eraseIdx'] at this
            exact this
          rw [hchosen] at hsub
          exact nodup_getElem_not_mem_eraseIdx _ hnodup idx hidxm hsub
        · exact ihn
      · intro x hx
        rcases List.mem_cons.mp hx with rfl | hx
        · rw [hchosen]
          exact List.getElem_mem hidxm
        · exact ((pool.map Prod.fst).eraseIdx_sublist idx).subset
            (by rw [← map_eraseIdx']; exact ihs x hx)

theorem flatIds_cons (p : String × List (String × Nat))
    (pools : List (String × List (String × Nat))) :
    flatIds (p :: pools) = p.2.map Prod.fst ++ flatIds pools := by
  simp [flatIds]

theorem flatIds_append (pools1 pools2 : List (String × List (String × Nat))) :
    flatIds (pools1 ++ pools2) = flatIds pools1 ++ flatIds pools2 := by
  simp [flatIds]

theorem dropEmpty_flatIds (pools : List (String × List (String × Nat))) :
    flatIds (dropEmpty pools) = flatIds pools := by
  induction pools with
  | nil => rfl
  | cons p rest ih =>
    obtain ⟨k, pool⟩ := p
    cases pool with
    | nil => simpa [dropEmpty, flatIds_cons] using ih
    | cons e es => simp [dropEmpty]

theorem dropEmpty_sumLens (pools : List (String × List (String × Nat))) :
    ((dropEmpty pools).map (fun p => p.2.length)).sum =
      (pools.map (fun p => p.2.length)).sum := by
  induction pools with
  | nil => rfl
  | cons p rest ih =>
    obtain ⟨k, pool⟩ := p
    cases pool with
    | nil => simpa [dropEmpty] using ih
    | cons e es => simp [dropEmpty]

theorem dropEmpty_mem (pools : List (String × List (String × Nat)))
    (p : String × List (String × Nat)) (h : p ∈ dropEmpty pools) :
    p ∈ pools := by
  induction pools with
  | nil => simp [dropEmpty] at h
  | cons q rest ih =>
    obtain ⟨k, pool⟩ := q
    cases pool with
    | nil =>
      simp only [dropEmpty] at h
      exact List.mem_cons_of_mem _ (ih h)
    | cons e es =>
      simpa [dropEmpty] using h

theorem dropEmpty_head_ne (pools rest : List (String × List (String × Nat)))
    (k : String) (pool : List (String × Nat))
    (h : dropEmpty pools = (k, pool) :: rest) : pool ≠ [] := by
  induction pools generalizing rest with
  | nil => exact absurd h (by simp [dropEmpty])
  | cons q prest ih =>
    obtain ⟨k', pool'⟩ := q
    cases pool' with
    | nil =>
      simp only [dropEmpty] at h
      exact ih rest h
    | cons e es =>
      simp only [dropEmpty] at h
      injection h with h1 h2
      have h3 : e :: es = pool := congrArg Prod.snd h1
      rw [← h3]
      simp

theorem dropEmpty_nil_sum (pools : List (String × List (String × Nat)))
    (h : dropEmpty pools = []) : (pools.map (fun p => p.2.length)).sum = 0 := by
  rw [← dropEmpty_sumLens, h]
  rfl

theorem dropEmpty_cons_ne (k : String) (pool : List (String × Nat))
    (rest : List (String × List (String × Nat))) (h : pool ≠ []) :
    dropEmpty ((k, pool) :: rest) = (k, pool) :: rest := by
  cases pool with
  | nil => exact absurd rfl h
  | cons e es => rfl

theorem roundRobin_spec (count : Nat) :
    ∀ (pools : List (String × List (String × Nat))) (s : Nat),
    (flatIds pools).Nodup →
    (∀ p ∈ pools, ∀ e ∈ p.2, 0 < e.2) →
    count ≤ (pools.map (fun p => p.2.length)).sum →
    (roundRobin pools count s).1.length = count ∧
    (roundRobin pools count s).1.Nodup ∧
    ∀ x ∈ (roundRobin pools count s).1, x ∈ flatIds pools := by
  induction count with
  | zero =>
    intro pools s _ _ _
    exact ⟨rfl, List.Pairwise.nil, by simp [roundRobin]⟩
  | succ c ih =>
    intro pools s hnodup hpos hcount
    cases hDE : dropEmpty pools with
    | nil =>
      exfalso
      have := dropEmpty_nil_sum pools hDE
      omega
    | cons hd rest =>
      obtain ⟨key, pool⟩ := hd
      have hpne : pool ≠ [] := dropEmpty_head_ne pools rest key pool hDE
      have hmemP : (key, pool) ∈ pools :=
        dropEmpty_mem pools _ (hDE ▸ List.mem_cons_self _ _)
      have hposP : ∀ e ∈ pool, 0 < e.2 := fun e he => hpos _ hmemP e he
      have hflat : flatIds pools = pool.map Prod.fst ++ flatIds rest := by
        rw [← dropEmpty_flatIds pools, hDE, flatIds_cons]
      have hsum : (pools.map (fun p => p.2.length)).sum =
          pool.length + (rest.map (fun p => p.2.length)).sum := by
        rw [← dropEmpty_sumLens pools, hDE]
        simp
      have hidx : (weightedChoice (pool.map Prod.snd) s).1 < pool.length :=
        weightedChoice_fst_lt pool s hpne hposP
      have hidxm : (weightedChoice (pool.map Prod.snd) s).1 <
          (pool.map Prod.fst).length := by simpa using hidx
      have hout : (roundRobin pools (c + 1) s).1 =
          pool[(weightedChoice (pool.map Prod.snd) s).1].1 ::
            (roundRobin
              (rest ++ [(key, pool.eraseIdx (weightedChoice (pool.map Prod.snd) s).1)])
              c (weightedChoice (pool.map Prod.snd) s).2).1 := by
        rw [roundRobin, hDE]
        simp only [drawGroup, List.getD_eq_getElem pool ("", 0) hidx]
      have hperm : (flatIds pools).Perm
          (pool[(weightedChoice (pool.map Prod.snd) s).1].1 ::
            flatIds (rest ++
              [(key, pool.eraseIdx (weightedChoice (pool.map Prod.snd) s).1)])) := by
        rw [hflat, flatIds_append, flatIds_cons]
        have p1 : (pool.map Prod.fst).Perm
            ((pool.map Prod.fst)[(weightedChoice (pool.map Prod.snd) s).1] ::
              (pool.map Prod.fst).eraseIdx (weightedChoice (pool.map Prod.snd) s).1) :=
          perm_getElem_cons_eraseIdx _ _ hidxm
        have p2 : (pool.map Prod.fst ++ flatIds rest).Perm
            (((pool.map Prod.fst)[(weightedChoice (pool.map Prod.snd) s).1] ::
              (pool.map Prod.fst).eraseIdx (weightedChoice (pool.map Prod.snd) s).1) ++
              flatIds rest) := p1.append_right _
        have p3 : (((pool.map Prod.fst).eraseIdx
              (weightedChoice (pool.map Prod.snd) s).1) ++ flatIds rest).Perm
            (flatIds rest ++ ((pool.map Prod.fst).eraseIdx
              (weightedChoice (pool.map Prod.snd) s).1)) := List.perm_append_comm
        have p4 := p2.trans (p3.cons _)
        simp only [List.getElem_map] at p4
        simpa [flatIds, map_eraseIdx'] using p4
      have hn2 := hperm.nodup_iff.mp hnodup
      obtain ⟨hnotin, hnodup2⟩ := List.nodup_cons.mp hn2
      have hpos2 : ∀ p ∈ rest ++
          [(key, pool.eraseIdx (weightedChoice (pool.map Prod.snd) s).1)],
          ∀ e ∈ p.2, 0 < e.2 := by
        intro p hp e he
        rcases List.mem_append.mp hp with hp | hp
        · exact hpos p (dropEmpty_mem pools p
            (hDE ▸ List.mem_cons_of_mem _ hp)) e he
        · rcases List.mem_singleton.mp hp with rfl
          exact hposP e ((pool.eraseIdx_sublist _).subset he)
      have herl : (pool.eraseIdx (weightedChoice (pool.map Prod.snd) s).1).length
          + 1 = pool.length := List.length_eraseIdx_add_one hidx
      have hsum2 : c ≤ ((rest ++
          [(key, pool.eraseIdx (weightedChoice (pool.map Prod.snd) s).1)]).map
            (fun p => p.2.length)).sum := by
        simp only [List.map_append, List.sum_append, List.map_cons, List.map_nil,
          List.sum_cons, List.sum_nil]
        omega
      obtain ⟨ihl, ihn, ihs⟩ := ih _ (weightedChoice (pool.map Prod.snd) s).2
        hnodup2 hpos2 hsum2
      rw [hout]
      refine ⟨by simp [ihl],
        List.Nodup.cons (fun hmem => hnotin (ihs _ hmem)) ihn, ?_⟩
      intro x hx
      rcases List.mem_cons.mp hx with rfl | hx
      · exact hperm.mem_iff.mpr (List.mem_cons_self _ _)
      · exact hperm.mem_iff.mpr (List.mem_cons_of_mem _ (ihs x hx))

theorem filter_partition_perm (go : String → String) (keys : List String) :
    ∀ (l : List (String × Nat)), keys.Nodup → (∀ e ∈ l, go e.1 ∈ keys) →
    ((keys.map (fun k => l.filter (fun e => go e.1 == k))).flatten).Perm l := by
  induction keys with
  | nil =>
    intro l _ hcover
    have : l = [] := by
      rw [List.eq_nil_iff_forall_not_mem]
      intro e he
      exact absurd (hcover e he) (by simp)
    rw [this]
    exact List.Perm.refl _
  | cons k ks ih =>
    intro l hnodup hcover
    obtain ⟨hk, hks⟩ := List.nodup_cons.mp hnodup
    have hfilter : ∀ k' ∈ ks, l.filter (fun e => go e.1 == k') =
        (l.filter (fun e => !(go e.1 == k))).filter (fun e => go e.1 == k') := by
      intro k' hk'
      have hkk : k' ≠ k := fun hcon => hk (hcon ▸ hk')
      rw [List.filter_filter]
      apply List.filter_congr
      intro e _
      by_cases heq : go e.1 = k'
      · simp [heq, hkk]
      · simp [heq]
    have hmapcongr : ks.map (fun k' => l.filter (fun e => go e.1 == k')) =
        ks.map (fun k' =>
          (l.filter (fun e => !(go e.1 == k))).filter (fun e => go e.1 == k')) :=
      List.map_congr_left hfilter
    have hcover2 : ∀ e ∈ l.filter (fun e => !(go e.1 == k)), go e.1 ∈ ks := by
      intro e he
      obtain ⟨hel, hne⟩ := List.mem_filter.mp he
      rcases List.mem_cons.mp (hcover e hel) with heq | hmem
      · simp [heq] at hne
      · exact hmem
    have htail := ih (l.filter (fun e => !(go e.1 == k))) hks hcover2
    have hsplit : ((k :: ks).map (fun k' =>
        l.filter (fun e => go e.1 == k'))).flatten =
        l.filter (fun e => go e.1 == k) ++
          (ks.map (fun k' => l.filter (fun e => go e.1 == k'))).flatten := by
      simp
    rw [hsplit, hmapcongr]
    exact (htail.append_left _).trans (List.filter_append_perm _ l)

theorem groupPools_flatten_perm (go : String → String)
    (l : List (String × Nat)) :
    (((groupPools go l).map Prod.snd).flatten).Perm l := by
  unfold groupPools
  rw [List.map_map]
  exact filter_partition_perm go (groupKeys go l) l (List.nodup_dedup _)
    (fun e he => List.mem_dedup.mpr (List.mem_map_of_mem _ he))

theorem groupPools_flatIds_perm (go : String → String)
    (l : List (String × Nat)) :
    (flatIds (groupPools go l)).Perm (l.map Prod.fst) := by
  have h1 : flatIds (groupPools go l) =
      (((groupPools go l).map Prod.snd).flatten).map Prod.fst := by
    rw [flatIds, List.flatMap_def, List.map_flatten, List.map_map]
    rfl
  rw [h1]
  exact (groupPools_flatten_perm go l).map Prod.fst

theorem groupPools_sum (go : String → String) (l : List (String × Nat)) :
    ((groupPools go l).map (fun p => p.2.length)).sum = l.length := by
  have h1 : (groupPools go l).map (fun p => p.2.length) =
      ((groupPools go l).map Prod.snd).map List.length := by
    rw [List.map_map]
    rfl
  rw [h1, ← List.length_flatten]
  exact (groupPools_flatten_perm go l).length_eq

theorem groupPools_pos (go : String → String) (l : List (String × Nat))
    (hpos : ∀ e ∈ l, 0 < e.2) :
    ∀ p ∈ groupPools go l, ∀ e ∈ p.2, 0 < e.2 := by
  intro p hp e he
  unfold groupPools at hp
  rcases List.mem_map.mp hp with ⟨k, _, rfl⟩
  exact hpos e (List.mem_filter.mp he).1

/-- C3: for every sheet that is not fixed, with the well-formedness
invariants of the data model (distinct identifiers, positive weights), and
every requested count not exceeding the number of distinct entries, the
sheet sampler succeeds and returns exactly count pairwise distinct card
identifiers. -/
theorem sheet_sampler_distinct (go : String → String) (sheet : Sheet)
    (count s : Nat)
    (hnodup : (sheet.cards.map Prod.fst).Nodup)
    (hpos : ∀ e ∈ sheet.cards, 0 < e.2)
    (hfixed : sheet.fixed = false)
    (hcount : count ≤ sheet.cards.length) :
    ∃ ids s', sampleSheet go sheet count s = Except.ok (ids, s') ∧
      ids.length = count ∧ ids.Nodup := by
  have hdistinct : distinctCount sheet = sheet.cards.length := by
    unfold distinctCount
    rw [hnodup.dedup, List.length_map]
  have hguard : ¬ distinctCount sheet < count := by omega
  by_cases hbal : sheet.balance = true
  · have hGn : (flatIds (groupPools go sheet.cards)).Nodup :=
      ((groupPools_flatIds_perm go sheet.cards).nodup_iff).mpr hnodup
    have hGp := groupPools_pos go sheet.cards hpos
    have hGs : count ≤
        ((groupPools go sheet.cards).map (fun p => p.2.length)).sum := by
      rw [groupPools_sum]
      exact hcount
    obtain ⟨hl, hn, -⟩ :=
      roundRobin_spec count (groupPools go sheet.cards) s hGn hGp hGs
    refine ⟨(roundRobin (groupPools go sheet.cards) count s).1,
      (roundRobin (groupPools go sheet.cards) count s).2, ?_, hl, hn⟩
    simp [sampleSheet, hguard, hfixed, hbal]
  · obtain ⟨hl, hn, -⟩ := sampleWeighted_spec count sheet.cards s hnodup hpos hcount
    refine ⟨(sampleWeighted sheet.cards count s).1,
      (sampleWeighted sheet.cards count s).2, ?_, hl, hn⟩
    simp [sampleSheet, hguard, hfixed, hbal]

/-- Witness for C3: the example balanced sheet holds three distinct cards
in two groups; a full draw of three returns three distinct identifiers. -/
theorem sheet_sampler_distinct_witness :
    ((exBalSheet.cards.map Prod.fst).Nodup ∧
      (∀ e ∈ exBalSheet.cards, 0 < e.2) ∧
      exBalSheet.fixed = false ∧ 3 ≤ exBalSheet.cards.length) ∧
    (∃ ids s', sampleSheet (groupOf exSet.cardPool) exBalSheet 3 5 =
        Except.ok (ids, s') ∧ ids.length = 3 ∧ ids.Nodup) :=
  ⟨⟨by decide, by decide, rfl, by decide⟩,
    sheet_sampler_distinct (groupOf exSet.cardPool) exBalSheet 3 5
      (by decide) (by decide) rfl (by decide)⟩

theorem roundRobin_take (count : Nat) :
    ∀ (pools : List (String × List (String × Nat))) (s : Nat),
    count ≤ pools.length →
    (∀ i, i < count → (pools.getD i ("", [])).2 ≠ []) →
    (∀ p ∈ pools, ∀ e ∈ p.2, 0 < e.2) →
    (roundRobin pools count s).1.length = count ∧
    ∀ i, i < count →
      (roundRobin pools count s).1.getD i "" ∈
        (pools.getD i ("", [])).2.map Prod.fst := by
  induction count with
  | zero =>
    intro pools s _ _ _
    exact ⟨rfl, fun i hi => absurd hi (Nat.not_lt_zero i)⟩
  | succ c ih =>
    intro pools s hlen hne hpos
    cases pools with
    | nil => simp at hlen
    | cons hd rest =>
      obtain ⟨key, pool⟩ := hd
      have hpne : pool ≠ [] := by
        have := hne 0 (Nat.succ_pos c)
        simpa using this
      have hDE : dropEmpty ((key, pool) :: rest) = (key, pool) :: rest :=
        dropEmpty_cons_ne key pool rest hpne
      have hposP : ∀ e ∈ pool, 0 < e.2 :=
        hpos (key, pool) (List.mem_cons_self _ _)
      have hidx := weightedChoice_fst_lt pool s hpne hposP
      have hout : (roundRobin ((key, pool) :: rest) (c + 1) s).1 =
          pool[(weightedChoice (pool.map Prod.snd) s).1].1 ::
            (roundRobin
              (rest ++ [(key, pool.eraseIdx (weightedChoice (pool.map Prod.snd) s).1)])
              c (weightedChoice (pool.map Prod.snd) s).2).1 := by
        rw [roundRobin, hDE]
        simp only [drawGroup, List.getD_eq_getElem pool ("", 0) hidx]
      have hcrest : c ≤ rest.length := by
        simpa using hlen
      have hne2 : ∀ i, i < c →
          (((rest ++ [(key, pool.eraseIdx (weightedChoice (pool.map Prod.snd) s).1)]).getD
            i ("", []))).2 ≠ [] := by
        intro i hi
        rw [List.getD_append _ _ _ i (lt_of_lt_of_le hi hcrest)]
        have := hne (i + 1) (Nat.succ_lt_succ hi)
        simpa [List.getD_cons_succ] using this
      have hpos2 : ∀ p ∈ rest ++
          [(key, pool.eraseIdx (weightedChoice (pool.map Prod.snd) s).1)],
          ∀ e ∈ p.2, 0 < e.2 := by
        intro p hp e he
        rcases List.mem_append.mp hp with hp | hp
        · exact hpos p (List.mem_cons_of_mem _ hp) e he
        · rcases List.mem_singleton.mp hp with rfl
          exact hposP e ((pool.eraseIdx_sublist _).subset he)
      obtain ⟨ihl, ihm⟩ :=
        ih (rest ++ [(key, pool.eraseIdx (weightedChoice (pool.map Prod.snd) s).1)])
          (weightedChoice (pool.map Prod.snd) s).2
          (le_trans hcrest (by simp)) hne2 hpos2
      rw [hout]
      refine ⟨by simp [ihl], ?_⟩
      intro i hi
      cases i with
      | zero =>
        simp only [List.getD_cons_zero]
        exact List.mem_map_of_mem Prod.fst (List.getElem_mem hidx)
      | succ j =>
        have hj : j < c := Nat.lt_of_succ_lt_succ hi
        simp only [List.getD_cons_succ]
        have hmem := ihm j hj
        rw [List.getD_append _ _ _ j (lt_of_lt_of_le hj hcrest)] at hmem
        exact hmem

theorem groupPools_length (go : String → String) (l : List (String × Nat)) :
    (groupPools go l).length = (groupKeys go l).length := by
  simp [groupPools]

theorem groupPools_getD (go : String → String) (l : List (String × Nat))
    (i : Nat) (hi : i < (groupKeys go l).length) :
    (groupPools go l).getD i ("", []) =
      ((groupKeys go l).getD i "",
        l.filter (fun e => go e.1 == (groupKeys go l).getD i "")) := by
  have hi2 : i < (groupPools go l).length := by
    rw [groupPools_length]
    exact hi
  rw [List.getD_eq_getElem _ _ hi2, List.getD_eq_getElem _ _ hi]
  unfold groupPools
  rw [List.getElem_map]

theorem groupPools_getD_ne (go : String → String) (l : List (String × Nat))
    (i : Nat) (hi : i < (groupKeys go l).length) :
    ((groupPools go l).getD i ("", [])).2 ≠ [] := by
  rw [groupPools_getD go l i hi]
  show l.filter (fun e => go e.1 == (groupKeys go l).getD i "") ≠ []
  have hkmem : (groupKeys go l).getD i "" ∈ groupKeys go l := by
    rw [List.getD_eq_getElem _ _ hi]
    exact List.getElem_mem hi
  have hmap : (groupKeys go l).getD i "" ∈ l.map (fun e => go e.1) := by
    unfold groupKeys at hkmem
    exact List.mem_dedup.mp hkmem
  rcases List.mem_map.mp hmap with ⟨e, he, heq⟩
  intro hnil
  have hmem : e ∈ l.filter (fun e => go e.1 == (groupKeys go l).getD i "") :=
    List.mem_filter.mpr ⟨he, by simp [heq]⟩
  rw [hnil] at hmem
  exact absurd hmem (List.not_mem_nil e)

theorem groupKeys_length_le (go : String → String) (l : List (String × Nat)) :
    (groupKeys go l).length ≤ l.length := by
  unfold groupKeys
  have := (List.dedup_sublist (l.map (fun e => go e.1))).length_le
  simpa using this

/-- C4: for every balanced, non-fixed sheet with well-formed entries, when
the requested count equals the number of balancing groups, the sampler
succeeds and draws exactly one card per group: the group of the i-th drawn
card is the i-th group key, and the card is drawn from the entries of that
very group. -/
theorem balanced_one_per_group (go : String → String) (sheet : Sheet)
    (s : Nat)
    (hnodup : (sheet.cards.map Prod.fst).Nodup)
    (hpos : ∀ e ∈ sheet.cards, 0 < e.2)
    (hbal : sheet.balance = true) (hfixed : sheet.fixed = false) :
    ∃ ids s',
      sampleSheet go sheet (groupKeys go sheet.cards).length s =
        Except.ok (ids, s') ∧
      ids.length = (groupKeys go sheet.cards).length ∧
      ids.map go = groupKeys go sheet.cards ∧
      (∀ i, i < (groupKeys go sheet.cards).length →
        ids.getD i "" ∈ (sheet.cards.filter
          (fun e => go e.1 == (groupKeys go sheet.cards).getD i "")).map
            Prod.fst) := by
  obtain ⟨hl, hm⟩ := roundRobin_take (groupKeys go sheet.cards).length
    (groupPools go sheet.cards) s
    (le_of_eq (groupPools_length go sheet.cards).symm)
    (fun i hi => groupPools_getD_ne go sheet.cards i hi)
    (groupPools_pos go sheet.cards hpos)
  have hmem : ∀ i, i < (groupKeys go sheet.cards).length →
      (roundRobin (groupPools go sheet.cards)
        (groupKeys go sheet.cards).length s).1.getD i "" ∈
        (sheet.cards.filter
          (fun e => go e.1 == (groupKeys go sheet.cards).getD i "")).map
            Prod.fst := by
    intro i hi
    have := hm i hi
    rw [groupPools_getD go sheet.cards i hi] at this
    exact this
  have hdistinct : distinctCount sheet = sheet.cards.length := by
    unfold distinctCount
    rw [hnodup.dedup, List.length_map]
  have hguard : ¬ distinctCount sheet < (groupKeys go sheet.cards).length := by
    have := groupKeys_length_le go sheet.cards
    omega
  refine ⟨(roundRobin (groupPools go sheet.cards)
      (groupKeys go sheet.cards).length s).1,
    (roundRobin (groupPools go sheet.cards)
      (groupKeys go sheet.cards).length s).2, ?_, hl, ?_, hmem⟩
  · simp [sampleSheet, hguard, hfixed, hbal]
  · apply List.ext_getElem
    · rw [List.length_map, hl]
    · intro n h1 h2
      rw [List.getElem_map]
      have hn : n < (groupKeys go sheet.cards).length := h2
      have hidsn : n < (roundRobin (groupPools go sheet.cards)
          (groupKeys go sheet.cards).length s).1.length := by
        rw [hl]
        exact hn
      have hmemn := hmem n hn
      rw [List.getD_eq_getElem _ _ hidsn] at hmemn
      rcases List.mem_map.mp hmemn with ⟨e, hef, heq⟩
      obtain ⟨-, hgrp⟩ := List.mem_filter.mp hef
      have hgo : go e.1 = (groupKeys go sheet.cards).getD n "" := by
        simpa using hgrp
      rw [← heq, hgo, List.getD_eq_getElem _ _ hn]

/-- Witness for C4: the example balanced sheet has two groups; a draw of
two returns one representative per group. -/
theorem balanced_one_per_group_witness :
    ((exBalSheet.cards.map Prod.fst).Nodup ∧
      (∀ e ∈ exBalSheet.cards, 0 < e.2) ∧
      exBalSheet.balance = true ∧ exBalSheet.fixed = false) ∧
    (∃ ids s',
      sampleSheet (groupOf exSet.cardPool) exBalSheet
        (groupKeys (groupOf exSet.cardPool) exBalSheet.cards).length 5 =
        Except.ok (ids, s') ∧
      ids.length =
        (groupKeys (groupOf exSet.cardPool) exBalSheet.cards).length ∧
      ids.map (groupOf exSet.cardPool) =
        groupKeys (groupOf exSet.cardPool) exBalSheet.cards ∧
      (∀ i, i < (groupKeys (groupOf exSet.cardPool) exBalSheet.cards).length →
        ids.getD i "" ∈ (exBalSheet.cards.filter
          (fun e => groupOf exSet.cardPool e.1 ==
            (groupKeys (groupOf exSet.cardPool) exBalSheet.cards).getD i "")).map
              Prod.fst)) :=
  ⟨⟨by decide, by decide, rfl, rfl⟩,
    balanced_one_per_group (groupOf exSet.cardPool) exBalSheet 5
      (by decide) (by decide) rfl rfl⟩

theorem sampleContents_sheets (go : String → String)
    (sheets : List (String × Sheet)) (contents : List (String × Nat)) :
    ∀ (s : Nat) (samples : List (String × Bool × String)) (s' : Nat),
    sampleContents go sheets contents s = Except.ok (samples, s') →
    ∀ t ∈ samples, ∃ sheet, alistGet t.2.2 sheets = some sheet ∧
      t.2.1 = sheet.foil := by
  induction contents with
  | nil =>
    intro s samples s' h t ht
    simp only [sampleContents] at h
    injection h with h
    have hs : samples = [] := (congrArg Prod.fst h).symm
    rw [hs] at ht
    exact absurd ht (List.not_mem_nil t)
  | cons c rest ih =>
    obtain ⟨sheetName, cnt⟩ := c
    intro s samples s' h t ht
    simp only [sampleContents] at h
    cases hlook : alistGet sheetName sheets with
    | none =>
      rw [hlook] at h
      exact Except.noConfusion h
    | some sheet =>
      rw [hlook] at h
      dsimp only at h
      cases hss : sampleSheet go sheet cnt s with
      | error e =>
        rw [hss] at h
        exact Except.noConfusion h
      | ok p =>
        obtain ⟨ids, s1⟩ := p
        rw [hss] at h
        dsimp only at h
        cases hrest : sampleContents go sheets rest s1 with
        | error e =>
          rw [hrest] at h
          exact Except.noConfusion h
        | ok q =>
          obtain ⟨tagged, s2⟩ := q
          rw [hrest] at h
          dsimp only at h
          injection h with h
          have hsamp : samples =
              ids.map (fun id => (id, sheet.foil, sheetName)) ++ tagged :=
            (congrArg Prod.fst h).symm
          rw [hsamp] at ht
          rcases List.mem_append.mp ht with hl | hr
          · rcases List.mem_map.mp hl with ⟨id, -, rfl⟩
            exact ⟨sheet, hlook, rfl⟩
          · exact ih s1 tagged s2 hrest t hr

theorem resolveCards_spec (pool : List (String × CardRecord)) :
    ∀ (samples : List (String × Bool × String)) (cards : List PackCard),
    resolveCards pool samples = Except.ok cards →
    cards.length = samples.length ∧
    ∀ i, i < samples.length →
      ∃ rec, alistGet (samples.getD i ("", false, "")).1 pool = some rec ∧
        cards.getD i defaultPackCard =
          mkPackCard rec (samples.getD i ("", false, "")).2.1
            (samples.getD i ("", false, "")).2.2 := by
  intro samples
  induction samples with
  | nil =>
    intro cards h
    simp only [resolveCards] at h
    injection h with h
    rw [← h]
    exact ⟨rfl, fun i hi => absurd hi (by simp)⟩
  | cons t rest ih =>
    obtain ⟨id, fl, sn⟩ := t
    intro cards h
    simp only [resolveCards] at h
    cases hlook : alistGet id pool with
    | none =>
      rw [hlook] at h
      exact Except.noConfusion h
    | some rec =>
      rw [hlook] at h
      dsimp only at h
      cases hrest : resolveCards pool rest with
      | error e =>
        rw [hrest] at h
        exact Except.noConfusion h
      | ok crest =>
        rw [hrest] at h
        dsimp only at h
        injection h with h
        obtain ⟨ihl, ihm⟩ := ih crest hrest
        rw [← h]
        refine ⟨by simp [ihl], ?_⟩
        intro i hi
        cases i with
        | zero => exact ⟨rec, by simp [hlook], by simp⟩
        | succ j =>
          have hj : j < rest.length := Nat.lt_of_succ_lt_succ hi
          simpa [List.getD_cons_succ] using ihm j hj

/-- C2: every card of a generated pack carries the foil flag of the
disjunction of its originating sheet being a foil sheet and the card being
intrinsically foil-only: a foil sheet forces foil true regardless of the
intrinsic availability, and a non-foil sheet leaves exactly the intrinsic
foil-only default. -/
theorem foil_resolution (setRec : SetRecord) (productName : String)
    (seed : Nat) (pack : GeneratedPack)
    (h : generate setRec productName seed = Except.ok pack)
    (i : Nat) (hi : i < pack.cards.length) :
    ∃ sheet rec,
      alistGet (pack.cards.getD i defaultPackCard).sheetName setRec.sheets =
        some sheet ∧
      pack.cards.getD i defaultPackCard =
        mkPackCard rec sheet.foil
          (pack.cards.getD i defaultPackCard).sheetName ∧
      (pack.cards.getD i defaultPackCard).foil =
        (sheet.foil || (rec.hasFoil && !rec.hasNonfoil)) ∧
      (sheet.foil = true → (pack.cards.getD i defaultPackCard).foil = true) ∧
      (sheet.foil = false → (pack.cards.getD i defaultPackCard).foil =
        (rec.hasFoil && !rec.hasNonfoil)) := by
  unfold generate at h
  cases hprod : alistGet productName setRec.products with
  | none =>
    rw [hprod] at h
    exact Except.noConfusion h
  | some product =>
    rw [hprod] at h
    dsimp only at h
    cases hsel : selectVariant product seed with
    | error e =>
      rw [hsel] at h
      exact Except.noConfusion h
    | ok v =>
      obtain ⟨vi, vw, contents, total, s⟩ := v
      rw [hsel] at h
      dsimp only at h
      cases hsc : sampleContents (groupOf setRec.cardPool) setRec.sheets
          contents s with
      | error e =>
        rw [hsc] at h
        exact Except.noConfusion h
      | ok p =>
        obtain ⟨samples, sfin⟩ := p
        rw [hsc] at h
        dsimp only at h
        cases hres : resolveCards setRec.cardPool samples with
        | error e =>
          rw [hres] at h
          exact Except.noConfusion h
        | ok cards =>
          rw [hres] at h
          dsimp only at h
          injection h with h
          have hpc : pack.cards = cards := by rw [← h]
          obtain ⟨hcl, hcm⟩ := resolveCards_spec setRec.cardPool samples
            cards hres
          have hilen : i < samples.length := by
            rw [← hcl, ← hpc]
            exact hi
          obtain ⟨rec, hrec, hcard⟩ := hcm i hilen
          have htm : samples.getD i ("", false, "") ∈ samples := by
            rw [List.getD_eq_getElem _ _ hilen]
            exact List.getElem_mem hilen
          obtain ⟨sheet, hsheet, hfl⟩ := sampleContents_sheets
            (groupOf setRec.cardPool) setRec.sheets contents s samples sfin
            hsc _ htm
          have hcard' : pack.cards.getD i defaultPackCard =
              mkPackCard rec (samples.getD i ("", false, "")).2.1
                (samples.getD i ("", false, "")).2.2 := by
            rw [hpc]
            exact hcard
          have hsn : (pack.cards.getD i defaultPackCard).sheetName =
              (samples.getD i ("", false, "")).2.2 := by
            rw [hcard']
            rfl
          refine ⟨sheet, rec, ?_, ?_, ?_, ?_, ?_⟩
          · rw [hsn]
            exact hsheet
          · rw [hsn, hcard', ← hfl]
          · rw [hcard']
            simp only [mkPackCard, foilFlag]
            rw [hfl]
          · intro hf
            rw [hcard']
            simp only [mkPackCard, foilFlag]
            rw [hfl, hf]
            simp
          · intro hf
            rw [hcard']
            simp only [mkPackCard, foilFlag]
            rw [hfl, hf]
            simp

/-- Witness for C2: the third card of the example pack at seed 42 comes
from the foil rare sheet, and the foil resolution theorem applies to it. -/
theorem foil_resolution_witness :
    (generate exSet "play" 42 = Except.ok exPack ∧ 2 < exPack.cards.length) ∧
    (∃ sheet rec,
      alistGet (exPack.cards.getD 2 defaultPackCard).sheetName exSet.sheets =
        some sheet ∧
      exPack.cards.getD 2 defaultPackCard =
        mkPackCard rec sheet.foil
          (exPack.cards.getD 2 defaultPackCard).sheetName ∧
      (exPack.cards.getD 2 defaultPackCard).foil =
        (sheet.foil || (rec.hasFoil && !rec.hasNonfoil)) ∧
      (sheet.foil = true → (exPack.cards.getD 2 defaultPackCard).foil = true) ∧
      (sheet.foil = false → (exPack.cards.getD 2 defaultPackCard).foil =
        (rec.hasFoil && !rec.hasNonfoil))) :=
  ⟨⟨rfl, by decide⟩, foil_resolution exSet "play" 42 exPack rfl 2 (by decide)⟩

/-- Witness for C10: concrete failing parser and response. -/
theorem vision_failures_default_witness :
    identifyCards (Except.error "api down") (fun _ => none) = [] ∧
    identifyCards (Except.ok "not json") (fun _ => none) = [] ∧
    getCardDetails (Except.error "api down") (fun _ => none) = defaultHints ∧
    getCardDetails (Except.ok "not json") (fun _ => none) = defaultHints ∧
    defaultHints = ⟨none, none, false, "Near Mint"⟩ :=
  vision_failures_default (fun _ => none) (fun _ => none) "api down"
    "not json" rfl rfl

end Mtgc
